import Mathlib

/-!
Shallow embedding of the server actions in `src/utils/actions.ts` of the
job-application tracker, together with proofs about the query, mutation and
aggregation layer.

The Prisma-backed store is modelled as a `List Job` in insertion order.  Each
server action becomes a pure function of the authenticated identity
(`Option String`, `none` meaning Clerk reported no user), the store contents,
a `dbFails` flag modelling the storage layer throwing inside the action's
`try` block, and the action's own parameters.  `redirect` (which throws in
Next.js) is modelled by the `ActionResult.redirect` constructor.
-/

namespace Jobify

/-- A timestamp, as the calendar data the code observes through `dayjs`:
year, month (1–12 on real dates), day of month, and the remaining
time-of-day (`tod`) below the day, in milliseconds.  Comparisons on `Date`
are lexicographic, matching comparisons of the underlying instants. -/
structure Date where
  year : Nat
  month : Nat
  day : Nat
  tod : Nat
  deriving DecidableEq

/-- Chronological order on timestamps (lexicographic on the calendar fields). -/
def dateLe (a b : Date) : Bool :=
  a.year < b.year ||
    (a.year == b.year && (a.month < b.month ||
      (a.month == b.month && (a.day < b.day ||
        (a.day == b.day && a.tod ≤ b.tod)))))

/-- The `Job` row of `prisma/schema.prisma`: `id` (uuid, primary key),
`clerkId` (the owner), the five text fields, and the two timestamps.
`status` and `mode` are free-text columns in the store. -/
structure Job where
  id : String
  clerkId : String
  position : String
  company : String
  location : String
  status : String
  mode : String
  createdAt : Date
  updatedAt : Date
  deriving DecidableEq

/-- The runtime `values` object of type `CreateAndEditJobType` handed to
`createJobAction`/`updateJobAction`.  TypeScript types are erased at runtime,
so a client can smuggle an extra `clerkId` property into the object; the
object spread `...values` in the actions would copy it.  `ownerField` models
that possible extra property (`none` = the property is absent). -/
structure CreateAndEditJobValues where
  position : String
  company : String
  location : String
  status : String
  mode : String
  ownerField : Option String := none
  deriving DecidableEq

/-- Outcome of a server action: either a thrown `redirect(path)` or a
returned value. -/
inductive ActionResult (α : Type) where
  | redirect (path : String)
  | ok (value : α)
  deriving DecidableEq

/-- Does `pat` occur at the head of `l`? (character-list prefix test). -/
def leadsWith : List Char → List Char → Bool
  | [], _ => true
  | _ :: _, [] => false
  | p :: ps, c :: cs => p == c && leadsWith ps cs

/-- Does `pat` occur anywhere inside `l`? (character-list substring test). -/
def hasSub (pat : List Char) : List Char → Bool
  | [] => leadsWith pat []
  | c :: cs => leadsWith pat (c :: cs) || hasSub pat cs

/-- Prisma's `field: { contains: pat }` filter on a PostgreSQL string column:
a plain `LIKE '%pat%'`, i.e. a case-sensitive substring test (the query does
not pass `mode: "insensitive"`). -/
def strContains (hay pat : String) : Bool :=
  hasSub pat.toList hay.toList

/-- The `whereClause` built by `getAllJobsAction`: always `clerkId = uid`;
an OR over `position`/`company` containing `search` when `search` is truthy
(present and non-empty); an exact `status` match when `jobStatus` is truthy
and not the sentinel `"all"`. -/
def whereMatches (uid : String) (search jobStatus : Option String) (j : Job) : Bool :=
  j.clerkId == uid
  && (match search with
      | none => true
      | some s => if s == "" then true else strContains j.position s || strContains j.company s)
  && (match jobStatus with
      | none => true
      | some st => if st == "" || st == "all" then true else j.status == st)

/-- `orderBy: { createdAt: "desc" }` — newest first. -/
def jobDescCreated (a b : Job) : Prop := dateLe b.createdAt a.createdAt = true

/-- `orderBy: { createdAt: "asc" }` — oldest first. -/
def jobAscCreated (a b : Job) : Prop := dateLe a.createdAt b.createdAt = true

instance : DecidableRel jobDescCreated := fun a b => by
  unfold jobDescCreated; infer_instance

instance : DecidableRel jobAscCreated := fun a b => by
  unfold jobAscCreated; infer_instance

/-- The store's `findMany` ordered by `createdAt` descending, modelled as a
stable sort of the matching rows (ties keep store order, the spec's
deterministic tiebreak). -/
def sortDescCreated (l : List Job) : List Job :=
  List.insertionSort jobDescCreated l

/-- The store's `findMany` ordered by `createdAt` ascending. -/
def sortAscCreated (l : List Job) : List Job :=
  List.insertionSort jobAscCreated l

/-- Result shape of `getAllJobsAction`. -/
structure JobsPage where
  jobs : List Job
  count : Nat
  page : Int
  totalPages : Nat
  deriving DecidableEq

/-- Embedding of `Math.ceil(count / limit)` for `limit ≥ 1` (the action's
`limit` defaults to 10 and the modelled fragment keeps it positive). -/
def mathCeilDiv (count limit : Nat) : Nat :=
  (count + limit - 1) / limit

/-- `getAllJobsAction` (actions.ts lines 112–194).  `page`/`limit` are the
optional parameters with TS defaults 1 and 10.  `skip = (page - 1) * limit`;
a negative `skip` is rejected by the Prisma query engine at run time (it
cannot be converted to an unsigned integer), which lands in the same `catch`
as any other storage failure, returning the empty result set. -/
def getAllJobsAction (userId : Option String) (db : List Job) (dbFails : Bool)
    (search jobStatus : Option String) (page : Option Int) (limit : Option Nat) :
    ActionResult JobsPage :=
  match userId with
  | none => .redirect "/"
  | some uid =>
    let page := page.getD 1
    let limit := limit.getD 10
    let skip : Int := (page - 1) * (limit : Int)
    if dbFails then .ok ⟨[], 0, 1, 0⟩
    else if skip < 0 then .ok ⟨[], 0, 1, 0⟩
    else
      let matching := db.filter (whereMatches uid search jobStatus)
      let jobs := ((sortDescCreated matching).drop skip.toNat).take limit
      let count := matching.length
      .ok ⟨jobs, count, page, mathCeilDiv count limit⟩

/-- `findUnique({ where: { id, clerkId } })` — the compound-key lookup. -/
def findUniqueJob (db : List Job) (id uid : String) : Option Job :=
  db.find? (fun j => j.id == id && j.clerkId == uid)

/-- `getSingleJobAction` (actions.ts lines 233–256): compound-key lookup,
redirect to `/jobs` when the job is missing, not owned, or the store threw. -/
def getSingleJobAction (userId : Option String) (db : List Job) (dbFails : Bool)
    (id : String) : ActionResult Job :=
  match userId with
  | none => .redirect "/"
  | some uid =>
    let job := if dbFails then none else findUniqueJob db id uid
    match job with
    | none => .redirect "/jobs"
    | some j => .ok j

/-- Modelled from the spec: `createAndEditJobSchema` lives in
`src/utils/types.ts`, which is not among the provided sources.  Spec §6 gives
the validation surface — `position`/`company`/`location` are non-empty
strings with minimum length 2, and §3 restricts `status` to
pending/interview/declined and `mode` to full-time/part-time/internship.
`parse` throws on violation; the Boolean here is "parse succeeds". -/
def createAndEditJobSchemaCheck (v : CreateAndEditJobValues) : Bool :=
  2 ≤ v.position.length && 2 ≤ v.company.length && 2 ≤ v.location.length
  && ["pending", "interview", "declined"].contains v.status
  && ["full-time", "part-time", "internship"].contains v.mode

/-- The record persisted by `prisma.job.create({ data: { ...values, clerkId: userId } })`.
The `clerkId:` written after the spread overrides any smuggled owner field in
`values`, and the store fills `id`, `createdAt` (`now()`) and `updatedAt`. -/
def jobFromValues (uid : String) (v : CreateAndEditJobValues) (now : Date)
    (newId : String) : Job :=
  { id := newId, clerkId := uid, position := v.position, company := v.company,
    location := v.location, status := v.status, mode := v.mode,
    createdAt := now, updatedAt := now }

/-- `createJobAction` (actions.ts lines 55–84): authenticate, `parse` the
values (a thrown `ZodError` is caught and becomes a bare `null`), then create
the record.  Returns the action's result together with the store afterwards. -/
def createJobAction (userId : Option String) (db : List Job) (dbFails : Bool)
    (values : CreateAndEditJobValues) (now : Date) (newId : String) :
    ActionResult (Option Job) × List Job :=
  match userId with
  | none => (.redirect "/", db)
  | some uid =>
    if !createAndEditJobSchemaCheck values then (.ok none, db)
    else if dbFails then (.ok none, db)
    else
      let job := jobFromValues uid values now newId
      (.ok (some job), db ++ [job])

/-- The fields written by `prisma.job.update({ data: { ...values } })`: the
five form fields, a smuggled `clerkId` property if one is present in the
runtime object, and the `@updatedAt` column refresh. -/
def applyValues (j : Job) (v : CreateAndEditJobValues) (now : Date) : Job :=
  { j with
    position := v.position,
    company := v.company,
    location := v.location,
    status := v.status,
    mode := v.mode,
    clerkId := v.ownerField.getD j.clerkId,
    updatedAt := now }

/-- `update({ where: { id, clerkId } })` on the store: rewrite the row whose
compound key matches, or report the miss (Prisma throws `P2025`). -/
def updateWhere (db : List Job) (id uid : String) (v : CreateAndEditJobValues)
    (now : Date) : Option (Job × List Job) :=
  match db with
  | [] => none
  | j :: rest =>
    if j.id == id && j.clerkId == uid then
      let j' := applyValues j v now
      some (j', j' :: rest)
    else
      match updateWhere rest id uid v now with
      | some (u, rest') => some (u, j :: rest')
      | none => none

/-- `delete({ where: { id, clerkId } })` on the store. -/
def deleteWhere (db : List Job) (id uid : String) : Option (Job × List Job) :=
  match db with
  | [] => none
  | j :: rest =>
    if j.id == id && j.clerkId == uid then some (j, rest)
    else
      match deleteWhere rest id uid with
      | some (d, rest') => some (d, j :: rest')
      | none => none

/-- `updateJobAction` (actions.ts lines 268–290): compound-key update; a
where-clause miss or a storage failure is caught and becomes `null`, with
the store untouched.  (Note: the update path performs no schema validation.) -/
def updateJobAction (userId : Option String) (db : List Job) (dbFails : Bool)
    (id : String) (values : CreateAndEditJobValues) (now : Date) :
    ActionResult (Option Job) × List Job :=
  match userId with
  | none => (.redirect "/", db)
  | some uid =>
    if dbFails then (.ok none, db)
    else
      match updateWhere db id uid values now with
      | some (j, db') => (.ok (some j), db')
      | none => (.ok none, db)

/-- `deleteJobAction` (actions.ts lines 205–222): compound-key delete; a miss
or a storage failure becomes `null`, with the store untouched. -/
def deleteJobAction (userId : Option String) (db : List Job) (dbFails : Bool)
    (id : String) : ActionResult (Option Job) × List Job :=
  match userId with
  | none => (.redirect "/", db)
  | some uid =>
    if dbFails then (.ok none, db)
    else
      match deleteWhere db id uid with
      | some (j, db') => (.ok (some j), db')
      | none => (.ok none, db)

/-- Result shape of `getStatsAction`: always exactly these three keys. -/
structure Stats where
  pending : Nat
  interview : Nat
  declined : Nat
  deriving DecidableEq

/-- First-occurrence deduplication, keeping store order. -/
def firstDedup {α : Type} [DecidableEq α] : List α → List α
  | [] => []
  | a :: l => a :: firstDedup (l.filter (fun b => b ≠ a))
termination_by l => l.length
decreasing_by
  simp only [List.length_cons]
  exact Nat.lt_succ_of_le (List.length_filter_le _ _)

/-- Number of rows of `l` whose `status` is exactly `s`. -/
def countStatus (l : List Job) (s : String) : Nat :=
  (l.filter (fun j => j.status == s)).length

/-- `prisma.job.groupBy({ by: ["status"], _count: { status: true } })` over
the rows `l`: one `(status, count)` row per distinct stored status value. -/
def groupByStatus (l : List Job) : List (String × Nat) :=
  (firstDedup (l.map Job.status)).map (fun s => (s, countStatus l s))

/-- Reading `acc[k]` on the accumulator object, with `(acc[k] || 0)`
defaulting. -/
def getKey (acc : List (String × Nat)) (k : String) : Nat :=
  match acc.find? (fun p => p.1 == k) with
  | some p => p.2
  | none => 0

/-- Writing `acc[k] = v` on the accumulator object. -/
def setKey (acc : List (String × Nat)) (k : String) (v : Nat) : List (String × Nat) :=
  match acc with
  | [] => [(k, v)]
  | (k', v') :: rest => if k' == k then (k, v) :: rest else (k', v') :: setKey rest k v

/-- One step of the `stats.reduce` in `getStatsAction`: lower-case the
group's status, keep it only when it is one of the three fixed categories,
and add the group's count onto that bucket. -/
def statsStep (acc : List (String × Nat)) (curr : String × Nat) : List (String × Nat) :=
  let normalized := curr.1.toLower
  if ["pending", "interview", "declined"].contains normalized then
    setKey acc normalized (getKey acc normalized + curr.2)
  else acc

/-- The whole `stats.reduce`, starting from the empty accumulator object. -/
def statsFold (groups : List (String × Nat)) : List (String × Nat) :=
  groups.foldl statsStep []

/-- `getStatsAction` (actions.ts lines 303–349): group the owner's rows by
status, normalize to lower case, fold into the three fixed buckets, default
missing buckets to 0; a storage failure redirects to `/jobs`. -/
def getStatsAction (userId : Option String) (db : List Job) (dbFails : Bool) :
    ActionResult Stats :=
  match userId with
  | none => .redirect "/"
  | some uid =>
    if dbFails then .redirect "/jobs"
    else
      let owned := db.filter (fun j => j.clerkId == uid)
      let statsObject := statsFold (groupByStatus owned)
      .ok { pending := getKey statsObject "pending",
            interview := getKey statsObject "interview",
            declined := getKey statsObject "declined" }

/-- Gregorian leap-year test (as `dayjs` uses for day-of-month clamping). -/
def isLeap (y : Nat) : Bool :=
  (y % 4 == 0 && y % 100 != 0) || y % 400 == 0

/-- Days in a month of a given year. -/
def daysInMonth (y m : Nat) : Nat :=
  if m == 2 then (if isLeap y then 29 else 28)
  else if m == 4 || m == 6 || m == 9 || m == 11 then 30
  else 31

/-- `dayjs().subtract(6, "month")`: move the calendar month back by six,
clamping the day of month to the target month's length, keeping the
time of day. -/
def subtractSixMonths (d : Date) : Date :=
  if 7 ≤ d.month then
    { year := d.year, month := d.month - 6,
      day := min d.day (daysInMonth d.year (d.month - 6)), tod := d.tod }
  else
    { year := d.year - 1, month := d.month + 6,
      day := min d.day (daysInMonth (d.year - 1) (d.month + 6)), tod := d.tod }

/-- The chart query's where-clause on `createdAt`:
`gte: sixMonthsAgo, lte: now`. -/
def inChartWindow (now : Date) (j : Job) : Bool :=
  dateLe (subtractSixMonths now) j.createdAt && dateLe j.createdAt now

/-- The `"MMM"` month abbreviations of `dayjs` (1-based month). -/
def monthAbbr : Nat → String
  | 1 => "Jan" | 2 => "Feb" | 3 => "Mar" | 4 => "Apr"
  | 5 => "May" | 6 => "Jun" | 7 => "Jul" | 8 => "Aug"
  | 9 => "Sep" | 10 => "Oct" | 11 => "Nov" | 12 => "Dec"
  | _ => ""

/-- The decimal digit character for `n % 10`. -/
def digitChar (n : Nat) : Char :=
  Char.ofNat (48 + n % 10)

/-- The `"YY"` token of `dayjs`: the year modulo 100, zero-padded to two
digits. -/
def pad2 (n : Nat) : String :=
  String.mk [digitChar (n / 10 % 10), digitChar n]

/-- `dayjs(d).format("MMM YY")`. -/
def fmtMMMYY (d : Date) : String :=
  monthAbbr d.month ++ " " ++ pad2 (d.year % 100)

/-- One step of the chart `reduce`: bump the count of the entry carrying this
date label if one exists (in place), else push a new entry with count 1. -/
def bump {α : Type} [DecidableEq α] (acc : List (α × Nat)) (d : α) : List (α × Nat) :=
  match acc with
  | [] => [(d, 1)]
  | (d', c) :: rest => if d' == d then (d', c + 1) :: rest else (d', c) :: bump rest d

/-- `getChartsDataAction` (actions.ts lines 359–407): fetch the owner's rows
with `createdAt` in `[now - 6 months, now]` ordered ascending, then fold them
into `(label, count)` entries keyed by the `"MMM YY"` label; a storage failure
redirects to `/jobs`. -/
def getChartsDataAction (userId : Option String) (db : List Job) (dbFails : Bool)
    (now : Date) : ActionResult (List (String × Nat)) :=
  match userId with
  | none => .redirect "/"
  | some uid =>
    if dbFails then .redirect "/jobs"
    else
      let jobs := sortAscCreated
        (db.filter (fun j => j.clerkId == uid && inChartWindow now j))
      .ok (jobs.foldl (fun acc j => bump acc (fmtMMMYY j.createdAt)) [])

/-- `getAllJobsForDownloadAction` (actions.ts lines 420–439): all of the
owner's rows, newest first, no pagination; a storage failure is caught and
becomes the empty list. -/
def getAllJobsForDownloadAction (userId : Option String) (db : List Job)
    (dbFails : Bool) : ActionResult (List Job) :=
  match userId with
  | none => .redirect "/"
  | some uid =>
    if dbFails then .ok []
    else .ok (sortDescCreated (db.filter (fun j => j.clerkId == uid)))

/-- Month key (year, month) of a timestamp — the calendar month a chart
record falls into. -/
def monthKey (d : Date) : Nat × Nat := (d.year, d.month)

/-- Strict chronological order on month keys. -/
def monthKeyLt (a b : Nat × Nat) : Prop :=
  a.1 < b.1 ∨ (a.1 = b.1 ∧ a.2 < b.2)

/-- The `"MMM YY"` label of a month key. -/
def fmtYM (ym : Nat × Nat) : String :=
  monthAbbr ym.2 ++ " " ++ pad2 (ym.1 % 100)

/-- A timestamp denoting a real calendar date (every value read back from the
store's `DateTime` column satisfies this). -/
def validDate (d : Date) : Bool :=
  1 ≤ d.month && d.month ≤ 12

instance : IsTotal Job jobDescCreated :=
  ⟨fun a b => by
    unfold jobDescCreated
    simp only [dateLe, Bool.or_eq_true, Bool.and_eq_true, decide_eq_true_eq, beq_iff_eq]
    omega⟩

instance : IsTrans Job jobDescCreated :=
  ⟨fun a b c h1 h2 => by
    unfold jobDescCreated at h1 h2 ⊢
    simp only [dateLe, Bool.or_eq_true, Bool.and_eq_true, decide_eq_true_eq,
      beq_iff_eq] at h1 h2 ⊢
    omega⟩

instance : IsTotal Job jobAscCreated :=
  ⟨fun a b => by
    unfold jobAscCreated
    simp only [dateLe, Bool.or_eq_true, Bool.and_eq_true, decide_eq_true_eq, beq_iff_eq]
    omega⟩

instance : IsTrans Job jobAscCreated :=
  ⟨fun a b c h1 h2 => by
    unfold jobAscCreated at h1 h2 ⊢
    simp only [dateLe, Bool.or_eq_true, Bool.and_eq_true, decide_eq_true_eq,
      beq_iff_eq] at h1 h2 ⊢
    omega⟩

/-! Concrete fixtures used by the witness and counterexample theorems. -/

/-- A fixed "now" instant: 2025-10-11, midnight. -/
def exNow : Date := ⟨2025, 10, 11, 0⟩

/-- A record of owner `alice`, created 2025-09-05. -/
def exJobA : Job :=
  ⟨"job-a", "alice", "Developer", "Acme", "Berlin", "pending", "full-time",
    ⟨2025, 9, 5, 0⟩, ⟨2025, 9, 5, 0⟩⟩

/-- A second record of owner `alice`, created 2025-10-01. -/
def exJobB : Job :=
  ⟨"job-b", "alice", "Designer", "Beta", "Hamburg", "Pending", "part-time",
    ⟨2025, 10, 1, 0⟩, ⟨2025, 10, 1, 0⟩⟩

/-- A record of a different owner `carol`, created 2025-10-02. -/
def exJobC : Job :=
  ⟨"job-c", "carol", "Developer", "Gamma", "Munich", "declined", "internship",
    ⟨2025, 10, 2, 0⟩, ⟨2025, 10, 2, 0⟩⟩

/-- An old record of owner `alice`, created 2024-01-01 (outside any 6-month
window anchored at `exNow`). -/
def exJobOld : Job :=
  ⟨"job-old", "alice", "Tester", "Delta", "Bonn", "weird", "full-time",
    ⟨2024, 1, 1, 0⟩, ⟨2024, 1, 1, 0⟩⟩

/-- The store fixture. -/
def exDb : List Job := [exJobA, exJobB, exJobC, exJobOld]

/-- A well-formed `values` object. -/
def exValues : CreateAndEditJobValues :=
  { position := "Engineer", company := "Acme", location := "Berlin",
    status := "pending", mode := "full-time" }

/-- A `values` object that also smuggles an owner field (`clerkId` property)
into the runtime object. -/
def exValuesSmuggled : CreateAndEditJobValues :=
  { position := "Engineer", company := "Acme", location := "Berlin",
    status := "pending", mode := "full-time", ownerField := some "mallory" }

/-- A `values` object violating the non-empty-string constraint on
`position`. -/
def exValuesInvalid : CreateAndEditJobValues :=
  { position := "", company := "Acme", location := "Berlin",
    status := "pending", mode := "full-time" }

/-! General lemmas about the store operations. -/

theorem mathCeilDiv_eq_ceil (a b : Nat) (hb : 0 < b) :
    mathCeilDiv a b = ⌈(a : ℚ) / (b : ℚ)⌉₊ := by
  rcases Nat.eq_zero_or_pos a with ha | ha
  · subst ha
    simp [mathCeilDiv, Nat.div_eq_of_lt (show b - 1 < b by omega)]
  · have hbq : (0 : ℚ) < (b : ℚ) := by exact_mod_cast hb
    have hq1 : mathCeilDiv a b = (a - 1) / b + 1 := by
      unfold mathCeilDiv
      rw [show a + b - 1 = (a - 1) + b by omega, Nat.add_div_right _ hb]
    rw [hq1]
    symm
    rw [Nat.ceil_eq_iff (Nat.succ_ne_zero _)]
    constructor
    · have h1 : ((a - 1) / b) * b ≤ a - 1 := Nat.div_mul_le_self _ _
      have h2 : ((a - 1) / b) * b < a := Nat.lt_of_le_of_lt h1 (Nat.sub_lt ha one_pos)
      have h3 : (((a - 1) / b : ℕ) : ℚ) * b < a := by exact_mod_cast h2
      have h4 := (lt_div_iff₀ hbq).mpr h3
      simpa using h4
    · have h3 : a ≤ ((a - 1) / b + 1) * b := by
        have hdm := Nat.div_add_mod (a - 1) b
        have hmod : (a - 1) % b < b := Nat.mod_lt _ hb
        rw [show ((a - 1) / b + 1) * b = b * ((a - 1) / b) + b by ring]
        generalize b * ((a - 1) / b) = t at hdm ⊢
        omega
      have h4 : ((a : ℚ)) ≤ (((a - 1) / b + 1 : ℕ) : ℚ) * b := by exact_mod_cast h3
      exact (div_le_iff₀ hbq).mpr h4

theorem updateWhere_eq_none_of_nomatch (db : List Job) (id uid : String)
    (v : CreateAndEditJobValues) (now : Date)
    (h : ∀ j ∈ db, ¬((j.id == id && j.clerkId == uid) = true)) :
    updateWhere db id uid v now = none := by
  induction db with
  | nil => rfl
  | cons j rest ih =>
    rw [updateWhere, if_neg (h j (by simp)), ih (fun x hx => h x (by simp [hx]))]

theorem deleteWhere_eq_none_of_nomatch (db : List Job) (id uid : String)
    (h : ∀ j ∈ db, ¬((j.id == id && j.clerkId == uid) = true)) :
    deleteWhere db id uid = none := by
  induction db with
  | nil => rfl
  | cons j rest ih =>
    rw [deleteWhere, if_neg (h j (by simp)), ih (fun x hx => h x (by simp [hx]))]

/-! Lemmas about `firstDedup`. -/

theorem mem_firstDedup {α : Type} [DecidableEq α] :
    ∀ (l : List α) (a : α), a ∈ firstDedup l ↔ a ∈ l
  | [], a => by simp [firstDedup]
  | b :: l, a => by
    rw [firstDedup]
    by_cases hab : a = b
    · subst hab; simp
    · simp only [List.mem_cons, hab, false_or]
      rw [mem_firstDedup (l.filter (fun x => x ≠ b)) a]
      simp [List.mem_filter, hab]
termination_by l => l.length
decreasing_by
  simp only [List.length_cons]
  exact Nat.lt_succ_of_le (List.length_filter_le _ _)

theorem nodup_firstDedup {α : Type} [DecidableEq α] :
    ∀ (l : List α), (firstDedup l).Nodup
  | [] => by simp [firstDedup]
  | b :: l => by
    rw [firstDedup]
    rw [List.nodup_cons]
    refine ⟨?_, nodup_firstDedup _⟩
    intro hmem
    have hb := (mem_firstDedup _ _).mp hmem
    simp [List.mem_filter] at hb
termination_by l => l.length
decreasing_by
  simp only [List.length_cons]
  exact Nat.lt_succ_of_le (List.length_filter_le _ _)

theorem sublist_firstDedup {α : Type} [DecidableEq α] :
    ∀ (l : List α), (firstDedup l).Sublist l
  | [] => by simp [firstDedup]
  | b :: l => by
    rw [firstDedup]
    exact List.Sublist.cons₂ b
      ((sublist_firstDedup (l.filter (fun x => x ≠ b))).trans (List.filter_sublist _))
termination_by l => l.length
decreasing_by
  simp only [List.length_cons]
  exact Nat.lt_succ_of_le (List.length_filter_le _ _)

/-! Lemmas about the accumulator object of `getStatsAction`. -/

theorem getKey_cons_same (k : String) (v : Nat) (rest : List (String × Nat)) :
    getKey ((k, v) :: rest) k = v := by
  simp [getKey]

theorem getKey_cons_other (k0 : String) (v0 : Nat) (rest : List (String × Nat))
    (k' : String) (h : k0 ≠ k') : getKey ((k0, v0) :: rest) k' = getKey rest k' := by
  unfold getKey
  have h' : ¬((fun p : String × Nat => p.1 == k') (k0, v0) = true) := by simp [h]
  rw [@List.find?_cons_of_neg _ (fun p => p.1 == k') (k0, v0) rest h']

theorem getKey_setKey_same (acc : List (String × Nat)) (k : String) (v : Nat) :
    getKey (setKey acc k v) k = v := by
  induction acc with
  | nil => exact getKey_cons_same k v []
  | cons p rest ih =>
    obtain ⟨k', v'⟩ := p
    rw [setKey]
    by_cases hk : k' = k
    · rw [if_pos (by simpa using hk)]
      exact getKey_cons_same k v rest
    · rw [if_neg (by simpa using hk)]
      rw [getKey_cons_other k' v' _ k hk]
      exact ih

theorem getKey_setKey_other (acc : List (String × Nat)) (k : String) (v : Nat)
    (k' : String) (h : k' ≠ k) : getKey (setKey acc k v) k' = getKey acc k' := by
  induction acc with
  | nil =>
    rw [show setKey [] k v = [(k, v)] from rfl, getKey_cons_other k v [] k' (Ne.symm h)]
  | cons p rest ih =>
    obtain ⟨k0, v0⟩ := p
    rw [setKey]
    by_cases hk : k0 = k
    · subst hk
      rw [if_pos (by simp)]
      rw [getKey_cons_other k0 v rest k' (Ne.symm h),
        getKey_cons_other k0 v0 rest k' (Ne.symm h)]
    · rw [if_neg (by simpa using hk)]
      by_cases hk0 : k0 = k'
      · subst hk0
        rw [getKey_cons_same, getKey_cons_same]
      · rw [getKey_cons_other k0 v0 _ k' hk0, getKey_cons_other k0 v0 rest k' hk0]
        exact ih

theorem getKey_statsFold_aux (key : String)
    (hkey : ["pending", "interview", "declined"].contains key = true) :
    ∀ (gs : List (String × Nat)) (acc : List (String × Nat)),
    getKey (gs.foldl statsStep acc) key =
      getKey acc key + ((gs.filter (fun g => g.1.toLower == key)).map Prod.snd).sum := by
  intro gs
  induction gs with
  | nil => intro acc; simp
  | cons g gs' ih =>
    intro acc
    rw [List.foldl_cons, ih (statsStep acc g)]
    by_cases hg : g.1.toLower = key
    · have hstep : statsStep acc g = setKey acc key (getKey acc key + g.2) := by
        unfold statsStep
        rw [hg, if_pos hkey]
      rw [hstep, getKey_setKey_same,
        List.filter_cons_of_pos (by simpa using hg), List.map_cons, List.sum_cons]
      omega
    · have hstep : getKey (statsStep acc g) key = getKey acc key := by
        unfold statsStep
        by_cases hc : ["pending", "interview", "declined"].contains g.1.toLower
        · rw [if_pos hc]
          exact getKey_setKey_other _ _ _ _ (fun h => hg h.symm)
        · rw [if_neg hc]
      rw [hstep, List.filter_cons_of_neg (by simpa using hg)]

theorem countStatus_cons (j : Job) (l : List Job) (s : String) :
    countStatus (j :: l) s = countStatus l s + (if j.status == s then 1 else 0) := by
  unfold countStatus
  rw [List.filter_cons]
  split
  · simp [Nat.add_comm]
  · simp

theorem sum_indicator {α : Type} [DecidableEq α] (a : α) :
    ∀ (ts : List α), ts.Nodup →
    (ts.map (fun s => if a == s then (1 : Nat) else 0)).sum = if a ∈ ts then 1 else 0 := by
  intro ts
  induction ts with
  | nil => simp
  | cons t ts' ih =>
    intro hnodup
    rw [List.nodup_cons] at hnodup
    rw [List.map_cons, List.sum_cons, ih hnodup.2]
    by_cases hat : a = t
    · subst hat
      simp [hnodup.1]
    · simp [hat, Ne.symm hat]

theorem sum_counts_partition (key : String) :
    ∀ (l : List Job) (ss : List String), ss.Nodup →
    (∀ j ∈ l, j.status ∈ ss) →
    ((ss.filter (fun s => s.toLower == key)).map (fun s => countStatus l s)).sum =
      (l.filter (fun j => j.status.toLower == key)).length := by
  intro l
  induction l with
  | nil => intro ss _ _; simp [countStatus]
  | cons j l' ih =>
    intro ss hnodup hcover
    have hcover' : ∀ x ∈ l', x.status ∈ ss := fun x hx => hcover x (by simp [hx])
    have hmap : ((ss.filter (fun s => s.toLower == key)).map
        (fun s => countStatus (j :: l') s)).sum =
        ((ss.filter (fun s => s.toLower == key)).map (fun s => countStatus l' s)).sum +
        ((ss.filter (fun s => s.toLower == key)).map
          (fun s => if j.status == s then (1 : Nat) else 0)).sum := by
      rw [← List.sum_map_add]
      congr 1
      apply List.map_congr_left
      intro s _
      rw [countStatus_cons]
    rw [hmap, ih ss hnodup hcover', sum_indicator j.status _ (List.Nodup.filter _ hnodup)]
    have hjss := hcover j (by simp)
    by_cases hkey : j.status.toLower = key
    · rw [List.filter_cons_of_pos (by simpa using hkey)]
      have hin : j.status ∈ ss.filter (fun s => s.toLower == key) := by
        rw [List.mem_filter]
        exact ⟨hjss, by simpa using hkey⟩
      rw [if_pos hin, List.length_cons]
    · rw [List.filter_cons_of_neg (by simpa using hkey)]
      have hout : j.status ∉ ss.filter (fun s => s.toLower == key) := by
        intro hmem
        rw [List.mem_filter] at hmem
        exact hkey (by simpa using hmem.2)
      rw [if_neg hout]
      omega

/-! Lemmas about the chart `reduce` step `bump`. -/

theorem bump_map_mem {α : Type} [DecidableEq α] (K : List α) (g : α → Nat) (d : α)
    (hnodup : K.Nodup) (hd : d ∈ K) :
    bump (K.map (fun s => (s, g s))) d =
      K.map (fun s => (s, g s + if s == d then 1 else 0)) := by
  induction K with
  | nil => cases hd
  | cons k K' ih =>
    rw [List.nodup_cons] at hnodup
    rw [List.map_cons, bump]
    by_cases hkd : k = d
    · subst hkd
      rw [if_pos (by simp)]
      rw [List.map_cons]
      congr 1
      · simp
      · apply List.map_congr_left
        intro s hs
        have hsk : ¬(s == k) = true := by
          simp only [beq_iff_eq]
          intro h
          exact hnodup.1 (h ▸ hs)
        rw [if_neg hsk, Nat.add_zero]
    · rw [if_neg (by simpa using hkd)]
      have hd' : d ∈ K' := by
        rcases List.mem_cons.mp hd with h | h
        · exact absurd h.symm hkd
        · exact h
      rw [ih hnodup.2 hd', List.map_cons, if_neg (by simpa using hkd), Nat.add_zero]

theorem bump_not_mem {α : Type} [DecidableEq α] (acc : List (α × Nat)) (d : α)
    (h : ∀ p ∈ acc, p.1 ≠ d) : bump acc d = acc ++ [(d, 1)] := by
  induction acc with
  | nil => rfl
  | cons p rest ih =>
    obtain ⟨d', c⟩ := p
    rw [bump, if_neg (by simpa using h (d', c) (by simp)),
      ih (fun q hq => h q (by simp [hq])), List.cons_append]

theorem firstDedup_append_singleton {α : Type} [DecidableEq α] :
    ∀ (ls : List α) (d : α),
    firstDedup (ls ++ [d]) =
      if d ∈ ls then firstDedup ls else firstDedup ls ++ [d]
  | [], d => by simp [firstDedup]
  | a :: ls, d => by
    have lhs : firstDedup ((a :: ls) ++ [d]) =
        a :: firstDedup ((ls ++ [d]).filter (fun b => b ≠ a)) := by
      rw [List.cons_append, firstDedup]
    have rhs : firstDedup (a :: ls) = a :: firstDedup (ls.filter (fun b => b ≠ a)) := by
      rw [firstDedup]
    rw [lhs, rhs, List.filter_append]
    by_cases had : d = a
    · subst had
      rw [show List.filter (fun b => b ≠ d) [d] = [] from by simp, List.append_nil,
        if_pos (by simp)]
    · rw [show List.filter (fun b => b ≠ a) [d] = [d] from by simp [had],
        firstDedup_append_singleton (ls.filter (fun b => b ≠ a)) d]
      by_cases hdls : d ∈ ls
      · rw [if_pos (List.mem_filter.mpr ⟨hdls, by simpa using had⟩),
          if_pos (by simp [hdls])]
      · have hd2 : d ∉ ls.filter (fun b => b ≠ a) :=
          fun hmem => hdls (List.mem_filter.mp hmem).1
        rw [if_neg hd2, if_neg (by simp [had, hdls]), List.cons_append]
termination_by ls _ => ls.length
decreasing_by
  simp only [List.length_cons]
  exact Nat.lt_succ_of_le (List.length_filter_le _ _)

theorem foldl_bump_eq {α : Type} [DecidableEq α] (ls : List α) :
    ls.foldl bump [] = (firstDedup ls).map (fun s => (s, ls.count s)) := by
  induction ls using List.reverseRecOn with
  | nil => simp [firstDedup]
  | append_singleton ls d ih =>
    rw [List.foldl_append, List.foldl_cons, List.foldl_nil, ih,
      firstDedup_append_singleton]
    by_cases hd : d ∈ ls
    · rw [if_pos hd,
        bump_map_mem _ _ _ (nodup_firstDedup ls) ((mem_firstDedup _ _).mpr hd)]
      apply List.map_congr_left
      intro s _
      rw [List.count_append, List.count_singleton]
      by_cases hsd : s = d
      · subst hsd; simp
      · simp [hsd, Ne.symm hsd]
    · rw [if_neg hd]
      have hnot : ∀ p ∈ (firstDedup ls).map (fun s => (s, ls.count s)), p.1 ≠ d := by
        rintro p hp h1
        obtain ⟨s, hs, rfl⟩ := List.mem_map.mp hp
        exact hd ((mem_firstDedup _ _).mp (h1 ▸ hs))
      rw [bump_not_mem _ _ hnot, List.map_append]
      congr 1
      · apply List.map_congr_left
        intro s hs
        have hsd : s ≠ d := fun h => hd ((mem_firstDedup _ _).mp (h ▸ hs))
        rw [List.count_append, List.count_singleton, if_neg (by simpa using Ne.symm hsd),
          Nat.add_zero]
      · rw [List.map_singleton, List.count_append, List.count_singleton,
          List.count_eq_zero.mpr hd]
        simp

theorem firstDedup_map_of_injOn {α β : Type} [DecidableEq α] [DecidableEq β] :
    ∀ (ks : List α) (f : α → β),
    (∀ x ∈ ks, ∀ y ∈ ks, f x = f y → x = y) →
    firstDedup (ks.map f) = (firstDedup ks).map f
  | [], f, _ => by simp [firstDedup]
  | k :: ks, f, hinj => by
    have lhs : firstDedup ((k :: ks).map f) =
        f k :: firstDedup ((ks.map f).filter (fun b => b ≠ f k)) := by
      rw [List.map_cons, firstDedup]
    have rhs : firstDedup (k :: ks) = k :: firstDedup (ks.filter (fun b => b ≠ k)) := by
      rw [firstDedup]
    rw [lhs, rhs, List.map_cons]
    congr 1
    have hfilter : (ks.map f).filter (fun b => b ≠ f k) =
        (ks.filter (fun b => b ≠ k)).map f := by
      rw [List.filter_map]
      congr 1
      apply List.filter_congr
      intro x hx
      simp only [Function.comp_apply, decide_eq_decide]
      constructor
      · intro hne hxk
        exact hne (hxk ▸ rfl)
      · intro hne hfxk
        exact hne (hinj x (by simp [hx]) k (by simp) hfxk)
    rw [hfilter]
    exact firstDedup_map_of_injOn (ks.filter (fun b => b ≠ k)) f
      (fun x hx y hy hf => hinj x (by simp [(List.mem_filter.mp hx).1])
        y (by simp [(List.mem_filter.mp hy).1]) hf)
termination_by ks _ _ => ks.length
decreasing_by
  simp only [List.length_cons]
  exact Nat.lt_succ_of_le (List.length_filter_le _ _)

theorem count_map_of_injOn {α β : Type} [DecidableEq α] [DecidableEq β]
    (f : α → β) (a : α) :
    ∀ (ks : List α), (∀ x ∈ ks, f x = f a → x = a) →
    (ks.map f).count (f a) = ks.count a := by
  intro ks
  induction ks with
  | nil => intro _; rfl
  | cons k ks ih =>
    intro hinj
    rw [List.map_cons, List.count_cons, List.count_cons,
      ih (fun x hx => hinj x (by simp [hx]))]
    congr 1
    by_cases hka : k = a
    · subst hka; simp
    · have hfka : f k ≠ f a := fun h => hka (hinj k (by simp) h)
      simp [hka, hfka]

theorem count_map_eq_length_filter {β : Type} [DecidableEq β]
    (f : Job → β) (b : β) :
    ∀ (l : List Job), (l.map f).count b = (l.filter (fun j => f j = b)).length := by
  intro l
  induction l with
  | nil => rfl
  | cons j l ih =>
    rw [List.map_cons, List.count_cons, ih, List.filter_cons]
    by_cases hj : f j = b
    · rw [if_pos (by simpa using hj), if_pos (by simpa using hj), List.length_cons]
    · rw [if_neg (by simpa using hj), if_neg (by simpa using hj), Nat.add_zero]

/-! Lemmas about month keys and the `"MMM YY"` label. -/

theorem monthKey_le_of_dateLe (a b : Date) (h : dateLe a b = true) :
    a.year < b.year ∨ (a.year = b.year ∧ a.month ≤ b.month) := by
  simp only [dateLe, Bool.or_eq_true, Bool.and_eq_true, decide_eq_true_eq,
    beq_iff_eq] at h
  omega

theorem monthAbbr_data_length (m : Nat) (h1 : 1 ≤ m) (h2 : m ≤ 12) :
    (monthAbbr m).data.length = 3 := by
  interval_cases m <;> decide

theorem monthAbbr_inj_lt :
    ∀ m1, m1 < 13 → ∀ m2, m2 < 13 → monthAbbr m1 = monthAbbr m2 → m1 = m2 := by
  decide

set_option maxRecDepth 8192 in
theorem pad2_inj : ∀ a, a < 100 → ∀ b, b < 100 → pad2 a = pad2 b → a = b := by
  decide

theorem fmtYM_inj (y1 m1 y2 m2 : Nat) (hm11 : 1 ≤ m1) (hm12 : m1 ≤ 12)
    (hm21 : 1 ≤ m2) (hm22 : m2 ≤ 12)
    (heq : fmtYM (y1, m1) = fmtYM (y2, m2)) : m1 = m2 ∧ y1 % 100 = y2 % 100 := by
  unfold fmtYM at heq
  have hdata := congrArg String.data heq
  simp only [String.data_append] at hdata
  rw [List.append_assoc, List.append_assoc] at hdata
  have hlen : (monthAbbr m1).data.length = (monthAbbr m2).data.length := by
    rw [monthAbbr_data_length m1 hm11 hm12, monthAbbr_data_length m2 hm21 hm22]
  obtain ⟨habbr, hrest⟩ := List.append_inj hdata hlen
  constructor
  · exact monthAbbr_inj_lt m1 (by omega) m2 (by omega) (String.ext habbr)
  · have hpad : (pad2 (y1 % 100)).data = (pad2 (y2 % 100)).data := by
      simpa using hrest
    exact pad2_inj (y1 % 100) (Nat.mod_lt _ (by norm_num)) (y2 % 100)
      (Nat.mod_lt _ (by norm_num)) (String.ext hpad)

theorem subtractSixMonths_year (now : Date) :
    (subtractSixMonths now).year = now.year ∨
      (subtractSixMonths now).year = now.year - 1 := by
  unfold subtractSixMonths
  by_cases h7 : 7 ≤ now.month
  · rw [if_pos h7]; left; rfl
  · rw [if_neg h7]; right; rfl

theorem window_year_bounds (now d : Date)
    (h1 : dateLe (subtractSixMonths now) d = true) (h2 : dateLe d now = true) :
    now.year - 1 ≤ d.year ∧ d.year ≤ now.year := by
  have hlow := monthKey_le_of_dateLe _ _ h1
  have hhigh := monthKey_le_of_dateLe _ _ h2
  rcases subtractSixMonths_year now with hy | hy <;> rw [hy] at hlow <;> omega

/-- C1: a record owned by `A` is invisible and immutable to any other
identity `B`: the single-record fetch redirects (NotFoundOrUnauthorized),
and update/delete return `null` leaving the store untouched — an id match
alone never authorizes anything, the `(id, clerkId)` compound key must
match. -/
theorem claim1_ownership_isolation (A B : String) (db : List Job) (R : Job)
    (v : CreateAndEditJobValues) (now : Date)
    (hids : (db.map Job.id).Nodup) (hR : R ∈ db) (hA : R.clerkId = A) (hB : B ≠ A) :
    getSingleJobAction (some B) db false R.id = .redirect "/jobs" ∧
    updateJobAction (some B) db false R.id v now = (.ok none, db) ∧
    deleteJobAction (some B) db false R.id = (.ok none, db) := by
  have hnomatch : ∀ j ∈ db, ¬((j.id == R.id && j.clerkId == B) = true) := by
    intro j hj hcontra
    simp only [Bool.and_eq_true, beq_iff_eq] at hcontra
    have hjR : j = R := List.inj_on_of_nodup_map hids hj hR hcontra.1
    exact hB (by rw [← hcontra.2, hjR, hA])
  have hfind : findUniqueJob db R.id B = none := by
    unfold findUniqueJob
    exact List.find?_eq_none.mpr hnomatch
  refine ⟨?_, ?_, ?_⟩
  · simp [getSingleJobAction, hfind]
  · simp [updateJobAction, updateWhere_eq_none_of_nomatch db R.id B v now hnomatch]
  · simp [deleteJobAction, deleteWhere_eq_none_of_nomatch db R.id B hnomatch]

/-- Witness for C1 at a concrete store: `carol` cannot read, update or
delete `alice`'s record `job-a`. -/
theorem claim1_witness :
    ((exDb.map Job.id).Nodup ∧ exJobA ∈ exDb ∧ exJobA.clerkId = "alice" ∧
      "carol" ≠ "alice") ∧
    (getSingleJobAction (some "carol") exDb false exJobA.id = .redirect "/jobs" ∧
     updateJobAction (some "carol") exDb false exJobA.id exValues exNow = (.ok none, exDb) ∧
     deleteJobAction (some "carol") exDb false exJobA.id = (.ok none, exDb)) :=
  ⟨⟨by decide, by decide, by decide, by decide⟩,
   claim1_ownership_isolation "alice" "carol" exDb exJobA exValues exNow
     (by decide) (by decide) (by decide) (by decide)⟩

/-- C2: a successful create always persists the caller's authenticated
identity as owner — the `clerkId:` written after the object spread overrides
any owner field smuggled into the caller-supplied values object, and the
created record is appended to the store. -/
theorem claim2_create_owner_forced (uid : String) (db : List Job)
    (values : CreateAndEditJobValues) (now : Date) (newId : String)
    (job : Job) (db' : List Job)
    (h : createJobAction (some uid) db false values now newId = (.ok (some job), db')) :
    job.clerkId = uid ∧ db' = db ++ [job] := by
  unfold createJobAction at h
  cases hv : createAndEditJobSchemaCheck values with
  | false =>
    rw [hv] at h
    simp at h
  | true =>
    rw [hv] at h
    simp only [Bool.not_true, Bool.false_eq_true, if_false, Prod.mk.injEq,
      ActionResult.ok.injEq, Option.some.injEq] at h
    obtain ⟨hj, hdb⟩ := h
    subst hj
    exact ⟨rfl, hdb.symm⟩

/-- Witness for C2: creating with a smuggled owner field `mallory` still
persists `alice` as the owner. -/
theorem claim2_witness :
    createJobAction (some "alice") exDb false exValuesSmuggled exNow "job-new" =
      (.ok (some (jobFromValues "alice" exValuesSmuggled exNow "job-new")),
        exDb ++ [jobFromValues "alice" exValuesSmuggled exNow "job-new"]) ∧
    ((jobFromValues "alice" exValuesSmuggled exNow "job-new").clerkId = "alice" ∧
      exDb ++ [jobFromValues "alice" exValuesSmuggled exNow "job-new"] =
        exDb ++ [jobFromValues "alice" exValuesSmuggled exNow "job-new"]) :=
  ⟨by decide,
   claim2_create_owner_forced "alice" exDb exValuesSmuggled exNow "job-new"
     (jobFromValues "alice" exValuesSmuggled exNow "job-new")
     (exDb ++ [jobFromValues "alice" exValuesSmuggled exNow "job-new"])
     (by decide)⟩

/-- C3: pagination correctness.  For N records matching the active filter
and page size P ≥ 1, page k (k ≥ 1) reports `count = N` and
`totalPages = ⌈N / P⌉`, returns `min P (N - (k-1)·P)` records (natural
subtraction giving the claim's `max 0` clamping), ordered by `createdAt`
descending, all matching the filter; a page beyond `totalPages` yields zero
records without error. -/
theorem claim3_pagination (uid : String) (db : List Job)
    (search jobStatus : Option String) (page limit : Nat)
    (hp : 1 ≤ page) (hl : 1 ≤ limit) :
    ∃ r : JobsPage,
      getAllJobsAction (some uid) db false search jobStatus
        (some (page : Int)) (some limit) = .ok r ∧
      r.count = (db.filter (whereMatches uid search jobStatus)).length ∧
      r.jobs.length =
        min limit ((db.filter (whereMatches uid search jobStatus)).length
          - (page - 1) * limit) ∧
      r.totalPages =
        ⌈((db.filter (whereMatches uid search jobStatus)).length : ℚ) / (limit : ℚ)⌉₊ ∧
      List.Pairwise jobDescCreated r.jobs ∧
      (∀ j ∈ r.jobs, whereMatches uid search jobStatus j = true) ∧
      (r.totalPages < page → r.jobs = []) := by
  have hlpos : 0 < limit := hl
  have hskipcast : (((page : Int)) - 1) * ((limit : Nat) : Int) =
      (((page - 1) * limit : Nat) : Int) := by
    rw [Nat.cast_mul, Nat.cast_sub hp]
    push_cast
    ring
  have hskipnn : ¬((((page : Int)) - 1) * ((limit : Nat) : Int) < 0) := by
    rw [hskipcast]
    exact not_lt.mpr (Int.natCast_nonneg _)
  have hact : getAllJobsAction (some uid) db false search jobStatus
      (some (page : Int)) (some limit) =
      .ok ⟨((sortDescCreated (db.filter (whereMatches uid search jobStatus))).drop
              ((page - 1) * limit)).take limit,
           (db.filter (whereMatches uid search jobStatus)).length,
           (page : Int),
           mathCeilDiv (db.filter (whereMatches uid search jobStatus)).length limit⟩ := by
    unfold getAllJobsAction
    simp only [Option.getD_some, Bool.false_eq_true, if_false]
    rw [if_neg hskipnn, hskipcast, Int.toNat_natCast]
  have hsortlen : (sortDescCreated (db.filter (whereMatches uid search jobStatus))).length =
      (db.filter (whereMatches uid search jobStatus)).length :=
    (List.perm_insertionSort _ _).length_eq
  have hlen : (((sortDescCreated (db.filter (whereMatches uid search jobStatus))).drop
      ((page - 1) * limit)).take limit).length =
      min limit ((db.filter (whereMatches uid search jobStatus)).length
        - (page - 1) * limit) := by
    rw [List.length_take, List.length_drop, hsortlen]
  refine ⟨_, hact, rfl, hlen, mathCeilDiv_eq_ceil _ _ hlpos, ?_, ?_, ?_⟩
  · exact List.Pairwise.sublist
      ((List.take_sublist _ _).trans (List.drop_sublist _ _))
      (List.sorted_insertionSort _ _)
  · intro j hj
    have hj2 : j ∈ sortDescCreated (db.filter (whereMatches uid search jobStatus)) :=
      ((List.take_sublist _ _).trans (List.drop_sublist _ _)).subset hj
    have hj3 : j ∈ db.filter (whereMatches uid search jobStatus) :=
      (List.perm_insertionSort _ _).mem_iff.mp hj2
    exact (List.mem_filter.mp hj3).2
  · intro hbeyond
    have hN : (db.filter (whereMatches uid search jobStatus)).length ≤ (page - 1) * limit := by
      have h1 : ((db.filter (whereMatches uid search jobStatus)).length + limit - 1) / limit
          < page := hbeyond
      have h2 : (db.filter (whereMatches uid search jobStatus)).length + limit - 1
          < page * limit := by
        exact (Nat.div_lt_iff_lt_mul hlpos).mp h1
      have h3 : (page - 1) * limit + limit = page * limit := by
        calc (page - 1) * limit + limit = ((page - 1) + 1) * limit := by ring
          _ = page * limit := by rw [show page - 1 + 1 = page by omega]
      rw [← h3] at h2
      generalize (page - 1) * limit = t at h2 ⊢
      omega
    apply List.eq_nil_of_length_eq_zero
    rw [hlen]
    omega

/-- Witness for C3 at a concrete store: page 2 of size 2 over `alice`'s
three records. -/
theorem claim3_witness :
    ((1 : Nat) ≤ 2 ∧ (1 : Nat) ≤ 2) ∧
    ∃ r : JobsPage,
      getAllJobsAction (some "alice") exDb false none none
        (some ((2 : Nat) : Int)) (some 2) = .ok r ∧
      r.count = (exDb.filter (whereMatches "alice" none none)).length ∧
      r.jobs.length =
        min 2 ((exDb.filter (whereMatches "alice" none none)).length - (2 - 1) * 2) ∧
      r.totalPages =
        ⌈((exDb.filter (whereMatches "alice" none none)).length : ℚ) / ((2 : Nat) : ℚ)⌉₊ ∧
      List.Pairwise jobDescCreated r.jobs ∧
      (∀ j ∈ r.jobs, whereMatches "alice" none none j = true) ∧
      (r.totalPages < 2 → r.jobs = []) :=
  ⟨⟨by decide, by decide⟩,
   claim3_pagination "alice" exDb none none 2 2 (by decide) (by decide)⟩

/-- C4: the search filter is case-SENSITIVE on the code as written (Prisma
`contains` without `mode: "insensitive"` against PostgreSQL), contradicting
the claim, the spec, and the code's own comment on actions.ts line 136:
searching `alice`'s store for "developer" misses the record whose position is
"Developer", while the exact-case search finds it. -/
theorem claim4_search_case_sensitivity :
    getAllJobsAction (some "alice") exDb false (some "developer") none
      (some 1) (some 10) = .ok ⟨[], 0, 1, 0⟩ ∧
    getAllJobsAction (some "alice") exDb false (some "Developer") none
      (some 1) (some 10) = .ok ⟨[exJobA], 1, 1, 1⟩ := by
  decide

/-- C5: `getStatsAction` returns exactly the three fixed keys, each counting
the owner's records whose lower-cased status equals that key; records whose
lower-cased status falls outside the three categories are counted nowhere,
and empty categories default to 0 (the count of an empty filter). -/
theorem claim5_stats (uid : String) (db : List Job) :
    getStatsAction (some uid) db false = .ok
      { pending := ((db.filter (fun j => j.clerkId == uid)).filter
          (fun j => j.status.toLower == "pending")).length,
        interview := ((db.filter (fun j => j.clerkId == uid)).filter
          (fun j => j.status.toLower == "interview")).length,
        declined := ((db.filter (fun j => j.clerkId == uid)).filter
          (fun j => j.status.toLower == "declined")).length } := by
  have main : ∀ key : String, ["pending", "interview", "declined"].contains key = true →
      getKey (statsFold (groupByStatus (db.filter (fun j => j.clerkId == uid)))) key =
      ((db.filter (fun j => j.clerkId == uid)).filter
        (fun j => j.status.toLower == key)).length := by
    intro key hkey
    unfold statsFold
    rw [getKey_statsFold_aux key hkey _ [], show getKey [] key = 0 from rfl,
      Nat.zero_add]
    unfold groupByStatus
    rw [List.filter_map, List.map_map]
    exact sum_counts_partition key _ _ (nodup_firstDedup _)
      (fun j hj => (mem_firstDedup _ _).mpr (List.mem_map_of_mem Job.status hj))
  calc getStatsAction (some uid) db false
      = .ok { pending := getKey (statsFold (groupByStatus
                (db.filter (fun j => j.clerkId == uid)))) "pending",
              interview := getKey (statsFold (groupByStatus
                (db.filter (fun j => j.clerkId == uid)))) "interview",
              declined := getKey (statsFold (groupByStatus
                (db.filter (fun j => j.clerkId == uid)))) "declined" } := rfl
    _ = _ := by
        rw [main "pending" (by decide), main "interview" (by decide),
          main "declined" (by decide)]

/-- C6: `getChartsDataAction` returns, in strictly ascending chronological
order, one entry per calendar month having at least one of the owner's
records with `createdAt` inside the inclusive window
`[now - 6 months, now]`, labelled `"MMM YY"`, with count the number of such
records in that month; records before the window start or in the future are
excluded by the window filter, and months without records produce no entry
(no zero-filling).  The `validDate` hypotheses say the timestamps denote
real calendar dates (month 1–12), as every value of the store's `DateTime`
column does. -/
theorem claim6_charts (uid : String) (db : List Job) (now : Date)
    (hnowy : 1 ≤ now.year)
    (hdb : ∀ j ∈ db, validDate j.createdAt = true) :
    ∃ months : List (Nat × Nat),
      List.Pairwise monthKeyLt months ∧
      (∀ ym : Nat × Nat, ym ∈ months ↔
        ∃ j ∈ db.filter (fun j => j.clerkId == uid && inChartWindow now j),
          monthKey j.createdAt = ym) ∧
      getChartsDataAction (some uid) db false now =
        .ok (months.map (fun ym =>
          (fmtYM ym,
            ((db.filter (fun j => j.clerkId == uid && inChartWindow now j)).filter
              (fun j => monthKey j.createdAt = ym)).length))) := by
  set window := db.filter (fun j => j.clerkId == uid && inChartWindow now j)
    with hwindow
  set sorted := sortAscCreated window with hsorted
  set keys := sorted.map (fun j => monthKey j.createdAt) with hkeys
  have hperm : sorted.Perm window := List.perm_insertionSort _ _
  have hwinprop : ∀ j ∈ window, validDate j.createdAt = true ∧
      now.year - 1 ≤ j.createdAt.year ∧ j.createdAt.year ≤ now.year := by
    intro j hj
    rw [hwindow, List.mem_filter] at hj
    obtain ⟨hjdb, hpred⟩ := hj
    rw [Bool.and_eq_true] at hpred
    have hval := hdb j hjdb
    have hwin : dateLe (subtractSixMonths now) j.createdAt = true ∧
        dateLe j.createdAt now = true := by
      have h2 := hpred.2
      unfold inChartWindow at h2
      simpa using h2
    exact ⟨hval, window_year_bounds now j.createdAt hwin.1 hwin.2⟩
  have hkeyprop : ∀ x ∈ keys,
      1 ≤ x.2 ∧ x.2 ≤ 12 ∧ now.year - 1 ≤ x.1 ∧ x.1 ≤ now.year := by
    intro x hx
    rw [hkeys] at hx
    obtain ⟨j, hj, rfl⟩ := List.mem_map.mp hx
    have hj' := hwinprop j (hperm.mem_iff.mp hj)
    have hval := hj'.1
    rw [validDate, Bool.and_eq_true, decide_eq_true_eq, decide_eq_true_eq] at hval
    exact ⟨hval.1, hval.2, hj'.2.1, hj'.2.2⟩
  have hinj : ∀ x ∈ keys, ∀ y ∈ keys, fmtYM x = fmtYM y → x = y := by
    intro x hx y hy hf
    have hxp := hkeyprop x hx
    have hyp := hkeyprop y hy
    obtain ⟨x1, x2⟩ := x
    obtain ⟨y1, y2⟩ := y
    obtain ⟨hm, h100⟩ := fmtYM_inj x1 x2 y1 y2 hxp.1 hxp.2.1 hyp.1 hyp.2.1 hf
    have h1 : x1 = y1 := by
      have hb1 := hxp.2.2
      have hb2 := hyp.2.2
      omega
    rw [Prod.mk.injEq]
    exact ⟨h1, hm⟩
  have h1 : getChartsDataAction (some uid) db false now =
      .ok (sorted.foldl (fun acc j => bump acc (fmtMMMYY j.createdAt)) []) := rfl
  have h2 : sorted.foldl (fun acc j => bump acc (fmtMMMYY j.createdAt)) [] =
      (keys.map fmtYM).foldl bump [] := by
    rw [hkeys, List.map_map, List.foldl_map]
    rfl
  have h3 : (keys.map fmtYM).foldl bump [] =
      (firstDedup (keys.map fmtYM)).map (fun s => (s, (keys.map fmtYM).count s)) :=
    foldl_bump_eq _
  have h4 : firstDedup (keys.map fmtYM) = (firstDedup keys).map fmtYM :=
    firstDedup_map_of_injOn keys fmtYM hinj
  refine ⟨firstDedup keys, ?_, ?_, ?_⟩
  · have hsortp : List.Pairwise jobAscCreated sorted := List.sorted_insertionSort _ _
    have hkeysp : List.Pairwise (fun a b : Nat × Nat =>
        a.1 < b.1 ∨ (a.1 = b.1 ∧ a.2 ≤ b.2)) keys := by
      rw [hkeys, List.pairwise_map]
      exact hsortp.imp (fun {a b} h => monthKey_le_of_dateLe _ _ h)
    have hp1 := List.Pairwise.sublist (sublist_firstDedup keys) hkeysp
    have hnd : List.Pairwise (fun a b => a ≠ b) (firstDedup keys) :=
      nodup_firstDedup keys
    refine (hp1.and hnd).imp ?_
    rintro a b ⟨hle, hne⟩
    unfold monthKeyLt
    rcases hle with h | ⟨he, hm⟩
    · exact Or.inl h
    · refine Or.inr ⟨he, ?_⟩
      rcases Nat.lt_or_ge a.2 b.2 with h | h
      · exact h
      · exfalso
        apply hne
        obtain ⟨a1, a2⟩ := a
        obtain ⟨b1, b2⟩ := b
        rw [Prod.mk.injEq]
        exact ⟨he, Nat.le_antisymm hm h⟩
  · intro ym
    rw [mem_firstDedup, hkeys]
    constructor
    · intro h
      obtain ⟨j, hj, rfl⟩ := List.mem_map.mp h
      exact ⟨j, hperm.mem_iff.mp hj, rfl⟩
    · rintro ⟨j, hj, rfl⟩
      exact List.mem_map.mpr ⟨j, hperm.mem_iff.mpr hj, rfl⟩
  · rw [h1, h2, h3, h4, List.map_map]
    congr 1
    apply List.map_congr_left
    intro ym hym
    simp only [Function.comp_apply]
    have hym' : ym ∈ keys := (mem_firstDedup _ _).mp hym
    congr 1
    rw [count_map_of_injOn fmtYM ym keys (fun x hx hf => hinj x hx ym hym' hf)]
    rw [hkeys, count_map_eq_length_filter]
    exact (hperm.filter (fun j => decide (monthKey j.createdAt = ym))).length_eq

/-- Witness for C6 at the concrete store: `alice`'s window at `exNow`
contains the September and October 2025 records; the 2024 record is out of
window and `carol`'s record belongs to another owner. -/
theorem claim6_witness :
    (1 ≤ exNow.year ∧ (∀ j ∈ exDb, validDate j.createdAt = true)) ∧
    (∃ months : List (Nat × Nat),
      List.Pairwise monthKeyLt months ∧
      (∀ ym : Nat × Nat, ym ∈ months ↔
        ∃ j ∈ exDb.filter (fun j => j.clerkId == "alice" && inChartWindow exNow j),
          monthKey j.createdAt = ym) ∧
      getChartsDataAction (some "alice") exDb false exNow =
        .ok (months.map (fun ym =>
          (fmtYM ym,
            ((exDb.filter (fun j => j.clerkId == "alice" && inChartWindow exNow j)).filter
              (fun j => monthKey j.createdAt = ym)).length)))) :=
  ⟨⟨by decide, by decide⟩, claim6_charts "alice" exDb exNow (by decide) (by decide)⟩

/-- C7: the fail-soft versus fail-hard split.  On storage failure the
listing action returns the empty result set and never surfaces the error,
while the two aggregations redirect the caller to `/jobs` and never return
partial or zero data. -/
theorem claim7_fail_soft_fail_hard :
    (∀ (uid : String) (db : List Job) (search jobStatus : Option String)
        (page : Option Int) (limit : Option Nat),
        getAllJobsAction (some uid) db true search jobStatus page limit =
          .ok ⟨[], 0, 1, 0⟩) ∧
    (∀ (uid : String) (db : List Job),
        getStatsAction (some uid) db true = .redirect "/jobs") ∧
    (∀ (uid : String) (db : List Job) (now : Date),
        getChartsDataAction (some uid) db true now = .redirect "/jobs") :=
  ⟨fun _ _ _ _ _ _ => rfl, fun _ _ => rfl, fun _ _ _ => rfl⟩

/-- C8 counterexample: with one-based pages, `page = 0` does NOT behave like
`page = 1`.  The negative skip is rejected by the store and the catch
converts it into the empty result set, while `page = 1` returns `alice`'s
three records. -/
theorem claim8_counterexample :
    getAllJobsAction (some "alice") exDb false none none (some 0) (some 10) ≠
      getAllJobsAction (some "alice") exDb false none none (some 1) (some 10) ∧
    getAllJobsAction (some "alice") exDb false none none (some 0) (some 10) =
      .ok ⟨[], 0, 1, 0⟩ ∧
    getAllJobsAction (some "alice") exDb false none none (some 1) (some 10) =
      .ok ⟨[exJobB, exJobA, exJobOld], 3, 1, 1⟩ := by
  refine ⟨?_, by decide, by decide⟩
  decide

/-- C8 amended: for every page value below 1 the action returns the empty
result set `{jobs: [], count: 0, page: 1, totalPages: 0}` (the storage layer
rejects the negative skip and the fail-soft catch answers), rather than the
page-1 results. -/
theorem claim8_amended (uid : String) (db : List Job)
    (search jobStatus : Option String) (page : Int) (limit : Nat)
    (hp : page < 1) (hl : 1 ≤ limit) :
    getAllJobsAction (some uid) db false search jobStatus (some page) (some limit) =
      .ok ⟨[], 0, 1, 0⟩ := by
  unfold getAllJobsAction
  simp only [Option.getD_some, Bool.false_eq_true, if_false]
  rw [if_pos]
  exact mul_neg_of_neg_of_pos (by omega) (by exact_mod_cast hl)

/-- Witness for C8 amended at `page = 0`. -/
theorem claim8_witness :
    ((0 : Int) < 1 ∧ (1 : Nat) ≤ 10) ∧
    getAllJobsAction (some "alice") exDb false none none (some 0) (some 10) =
      .ok ⟨[], 0, 1, 0⟩ :=
  ⟨⟨by decide, by decide⟩,
   claim8_amended "alice" exDb none none 0 10 (by decide) (by decide)⟩

/-- C9 counterexample: on a values object with an empty `position`, the
create action returns the bare generic failure `null` with nothing
persisted — byte-for-byte the same observable outcome as a pure storage
failure on perfectly valid input, so no caller-visible field-level
validation messages exist on this path. -/
theorem claim9_counterexample :
    createJobAction (some "alice") ([] : List Job) false exValuesInvalid exNow "id-1" =
      (.ok none, ([] : List Job)) ∧
    createJobAction (some "alice") ([] : List Job) true exValues exNow "id-1" =
      (.ok none, ([] : List Job)) := by
  decide

/-- C9 amended: on any input rejected by the schema, `createJobAction`
catches the thrown validation error and fails with the bare generic `null`
signal (no field-level messages on the action's return path), and no record
is persisted. -/
theorem claim9_amended (uid : String) (db : List Job)
    (values : CreateAndEditJobValues) (now : Date) (newId : String)
    (hv : createAndEditJobSchemaCheck values = false) :
    createJobAction (some uid) db false values now newId = (.ok none, db) := by
  unfold createJobAction
  rw [hv]
  simp

/-- Witness for C9 amended at the concrete invalid values object. -/
theorem claim9_witness :
    createAndEditJobSchemaCheck exValuesInvalid = false ∧
    createJobAction (some "alice") exDb false exValuesInvalid exNow "id-1" =
      (.ok none, exDb) :=
  ⟨by decide, claim9_amended "alice" exDb exValuesInvalid exNow "id-1" (by decide)⟩

/-- C10: the export path is fail-soft — on storage failure it returns the
empty list (no redirect, no propagated error) — and on success it returns
all of the owner's records with no page limit, ordered by `createdAt`
descending. -/
theorem claim10_download_failsoft_and_unpaginated (uid : String) (db : List Job) :
    getAllJobsForDownloadAction (some uid) db true = .ok [] ∧
    ∃ jobs, getAllJobsForDownloadAction (some uid) db false = .ok jobs ∧
      jobs.Perm (db.filter (fun j => j.clerkId == uid)) ∧
      List.Pairwise jobDescCreated jobs := by
  refine ⟨rfl, sortDescCreated (db.filter (fun j => j.clerkId == uid)), rfl, ?_, ?_⟩
  · exact List.perm_insertionSort _ _
  · exact List.sorted_insertionSort _ _

end Jobify
